import Mathlib

/-!
Verification of the ProjectORQON retrieval and dispatch subsystems.

The definitions below are shallow embeddings of the Python sources:
* `orqon_core/tools/astra_db_tools.py` — chunking, confidence scoring,
  query rewriting, embedding truncation and `hybrid_search`;
* `orqon_core/mcp_server.py` — pronoun resolution and agent routing;
* `orqon_core/tools/memory_tools.py` — the bounded short-term buffer.

Strings are modelled as `List Char` (with `String` wrappers at the edges),
floating-point similarities as rationals, and the external collaborators
(LLM, embedding provider, vector collections) as explicit function
arguments returning `Except`/`Option` values.
-/

namespace Orqon

/-- Apostrophe character, used by several keyword literals. -/
def apos : Char := Char.ofNat 39

/-- Apostrophe as a one-character string. -/
def aposS : String := String.mk [apos]

/-- Python `str.isspace` range used by `\s`, `split()` and `strip()`
(ASCII fragment: space, tab, newline, carriage return, vertical tab, form feed). -/
def isPySpace (c : Char) : Bool :=
  c == ' ' || c == Char.ofNat 9 || c == Char.ofNat 10 || c == Char.ofNat 13 ||
  c == Char.ofNat 11 || c == Char.ofNat 12

/-- Regex word character (`\w` over ASCII): letter, digit or underscore. -/
def isWordChar (c : Char) : Bool :=
  c.isAlpha || c.isDigit || c == '_'

/-- Python `str.lower()` on a character list (ASCII). -/
def lowerL (l : List Char) : List Char := l.map Char.toLower

/-- Python `str.strip()`: drop whitespace from both ends. -/
def pyStripL (l : List Char) : List Char :=
  ((l.dropWhile isPySpace).reverse.dropWhile isPySpace).reverse

/-- `query.lower().strip()` as used throughout `mcp_server.py`. -/
def pyLowerStrip (s : String) : String :=
  String.mk (pyStripL (lowerL s.data))

/-- Whether `pat` is a prefix of `l` (character lists, exact case). -/
def isPrefixCh : List Char → List Char → Bool
  | [], _ => true
  | _ :: _, [] => false
  | a :: as, b :: bs => a == b && isPrefixCh as bs

/-- Python `pat in hay` substring containment on character lists. -/
def containsSub (pat : List Char) : List Char → Bool
  | [] => isPrefixCh pat []
  | c :: rest => isPrefixCh pat (c :: rest) || containsSub pat rest

/-- `pat in s` on strings (Python substring test). -/
def strIn (pat s : String) : Bool := containsSub pat.data s.data

/-- Word counter: `len(s.split())`. `b` records whether the previous
character was whitespace (or the start of the string). -/
def wcAux (b : Bool) : List Char → Nat
  | [] => 0
  | c :: rest =>
    if isPySpace c then wcAux true rest
    else (if b then 1 else 0) + wcAux false rest

/-- `len(s.split())` for a character list. -/
def wcL (l : List Char) : Nat := wcAux true l

/-- `len(s.split())` for a string. -/
def wcS (s : String) : Nat := wcL s.data

/-- Python `s.split()`: whitespace-separated words, no empties.
`cur` is the (reversed) word being accumulated. -/
def pyWordsAux (cur : List Char) : List Char → List (List Char)
  | [] => if cur.isEmpty then [] else [cur.reverse]
  | c :: rest =>
    if isPySpace c then
      if cur.isEmpty then pyWordsAux [] rest
      else cur.reverse :: pyWordsAux [] rest
    else pyWordsAux (c :: cur) rest

/-- Python `s.split()` on a character list. -/
def pyWords (l : List Char) : List (List Char) := pyWordsAux [] l

/-- Python `' '.join(parts)` on character lists. -/
def joinSpace : List (List Char) → List Char
  | [] => []
  | [p] => p
  | p :: q :: rest => p ++ ' ' :: joinSpace (q :: rest)

/-! ## `KNOWLEDGE_BASE_CONFIG` (astra_db_tools.py, lines 57–114) -/

/-- The fields of `KNOWLEDGE_BASE_CONFIG` consulted by the functions
modelled here.  The retrieval threshold is kept as the configured level
name, exactly as the Python dict stores it. -/
structure KBConfig where
  mode : String
  maxDocsPassedToLLM : Nat
  retrievalThreshold : String
  queryRewriteEnabled : Bool
  citationsShown : Int
  searchLimit : Nat
  chunkSize : Nat
  chunkOverlap : Nat
deriving DecidableEq

/-- The literal configuration shipped in `astra_db_tools.py`. -/
def KNOWLEDGE_BASE_CONFIG : KBConfig :=
  { mode := "dynamic"
    maxDocsPassedToLLM := 10
    retrievalThreshold := "Low"
    queryRewriteEnabled := true
    citationsShown := -1
    searchLimit := 5
    chunkSize := 512
    chunkOverlap := 50 }

/-! ## Confidence classifier (`_calculate_confidence`, lines 488–523) -/

/-- Confidence labels returned by `_calculate_confidence`
("Highest", "High", "Moderate", "Low", "Very Low"). -/
inductive Conf where
  | veryLow | low | moderate | high | highest
deriving DecidableEq, Repr

/-- `threshold_map.get(retrieval_threshold, 0.6)`: numeric floor of a
configured threshold level, defaulting to 0.6 for unknown names. -/
def thresholdFloor (t : String) : ℚ :=
  if t = "Off" then 0
  else if t = "Lowest" then mkRat 1 2
  else if t = "Low" then mkRat 3 5
  else if t = "High" then mkRat 3 4
  else if t = "Highest" then mkRat 17 20
  else mkRat 3 5

/-- `AstraDBVectorStore._calculate_confidence(similarity)`:
returns the descriptive label and the pass/fail decision against the
configured retrieval threshold. -/
def calcConfidence (retrievalThreshold : String) (similarity : ℚ) : Conf × Bool :=
  let minSimilarity := thresholdFloor retrievalThreshold
  let passes := decide (minSimilarity ≤ similarity)
  if mkRat 9 10 ≤ similarity then (Conf.highest, passes)
  else if mkRat 4 5 ≤ similarity then (Conf.high, passes)
  else if mkRat 7 10 ≤ similarity then (Conf.moderate, passes)
  else if mkRat 3 5 ≤ similarity then (Conf.low, passes)
  else (Conf.veryLow, passes)

/-! ## Sentence splitting and chunking (`_chunk_text`, lines 398–442) -/

/-- Terminal punctuation recognised by the sentence splitter. -/
def isTermCh (c : Char) : Bool := c == '.' || c == '!' || c == '?'

/-- Automaton for `re.split(r'(?<=[.!?])\s+', text)`.
`skipping` is true while consuming the whitespace run of a current split
match; `prev` is the previous character (lookbehind).  Returns the part
being built at the current position together with the later parts. -/
def ssAux : Bool → Char → List Char → List Char × List (List Char)
  | _, _, [] => ([], [])
  | true, _, c :: rest =>
    if isPySpace c then ssAux true c rest
    else
      let p := ssAux false c rest
      (c :: p.1, p.2)
  | false, prev, c :: rest =>
    if isTermCh prev && isPySpace c then
      let p := ssAux true c rest
      ([], p.1 :: p.2)
    else
      let p := ssAux false c rest
      (c :: p.1, p.2)

/-- `re.split(r'(?<=[.!?])\s+', text)`: sentences of a text.  Always a
non-empty list (the empty text yields one empty sentence, as in Python). -/
def sentSplitL (l : List Char) : List (List Char) :=
  (ssAux false ' ' l).1 :: (ssAux false ' ' l).2

/-- Python tail slice `l[-k:]` for `k = overlap // 10` (note `l[-0:]`
is the whole list). -/
def pyTailSlice (k : Nat) (l : List α) : List α :=
  if k = 0 then l else l.drop (l.length - k)

/-- A chunk record `{"text": ..., "title": ..., "chunk_id": ...}`. -/
structure ChunkRec where
  text : String
  title : String
  chunkId : Nat
deriving DecidableEq, Repr

/-- One iteration of the sentence loop of `_chunk_text`.  The state is
`(chunks, current_chunk, current_length)`. -/
def chunkStep (chunkSize ov : Nat) (title : String)
    (st : List ChunkRec × List (List Char) × Nat)
    (sentence : List Char) : List ChunkRec × List (List Char) × Nat :=
  let chunks := st.1
  let current := st.2.1
  let currentLength := st.2.2
  let sentenceLength := wcL sentence
  if chunkSize < currentLength + sentenceLength && !current.isEmpty then
    let closed := chunks ++ [⟨String.mk (joinSpace current), title, chunks.length⟩]
    let overlapSentences := if current.length > 1 then pyTailSlice (ov / 10) current else []
    let newCurrent := overlapSentences ++ [sentence]
    (closed, newCurrent, (newCurrent.map wcL).sum)
  else
    (chunks, current ++ [sentence], currentLength + sentenceLength)

/-- `AstraDBVectorStore._chunk_text(text, title)` for a given
configuration: sentence-based chunking with overlap. -/
def chunkTextCfg (cfg : KBConfig) (text title : String) : List ChunkRec :=
  let sentences := sentSplitL text.data
  let st := sentences.foldl (chunkStep cfg.chunkSize cfg.chunkOverlap title) ([], [], 0)
  if !st.2.1.isEmpty then
    st.1 ++ [⟨String.mk (joinSpace st.2.1), title, st.1.length⟩]
  else st.1

/-- `_chunk_text` with the shipped `KNOWLEDGE_BASE_CONFIG`. -/
def chunkText (text title : String) : List ChunkRec :=
  chunkTextCfg KNOWLEDGE_BASE_CONFIG text title

/-- Instrumented variant of `chunkStep` that records each chunk as its
list of sentences instead of the joined text (same branch structure). -/
def chunkSentsStep (chunkSize ov : Nat)
    (st : List (List (List Char)) × List (List Char) × Nat)
    (sentence : List Char) : List (List (List Char)) × List (List Char) × Nat :=
  let chunks := st.1
  let current := st.2.1
  let currentLength := st.2.2
  let sentenceLength := wcL sentence
  if chunkSize < currentLength + sentenceLength && !current.isEmpty then
    let closed := chunks ++ [current]
    let overlapSentences := if current.length > 1 then pyTailSlice (ov / 10) current else []
    let newCurrent := overlapSentences ++ [sentence]
    (closed, newCurrent, (newCurrent.map wcL).sum)
  else
    (chunks, current ++ [sentence], currentLength + sentenceLength)

/-- Chunks of `_chunk_text` at the sentence_list level. -/
def chunkSentLists (chunkSize ov : Nat) (sentences : List (List Char)) :
    List (List (List Char)) :=
  let st := sentences.foldl (chunkSentsStep chunkSize ov) ([], [], 0)
  if !st.2.1.isEmpty then st.1 ++ [st.2.1] else st.1

/-! ## Query rewriting (`_rewrite_query`, lines 444–486) -/

/-- A LangChain message as passed to the LLM collaborator. -/
inductive PyMsg where
  | system (content : String)
  | human (content : String)
deriving DecidableEq

/-- Python `l[-n:]`: the last `n` elements. -/
def lastN (n : Nat) (l : List α) : List α := l.drop (l.length - n)

/-- The system prompt string of `_rewrite_query`. -/
def rewriteSystemPrompt : String :=
  "You are a query rewriter for a financial trading knowledge base.\n" ++
  "Rewrite the user" ++ aposS ++ "s query to be more specific and searchable, incorporating conversation context.\n" ++
  "Keep it concise (1-2 sentences max).\n" ++
  "Focus on key entities: client names, tickers, trade types, compliance terms.\n\n" ++
  "Examples:\n" ++
  "User: \"What about Sheila?\"\n" ++
  "Context: Previous query about TSLA trades\n" ++
  "Rewritten: \"What are Sheila Carter" ++ aposS ++ "s TSLA trades and account information?\"\n\n" ++
  "User: \"Check compliance\"\n" ++
  "Context: Previous query about unsolicited trades\n" ++
  "Rewritten: \"What are the compliance rules for unsolicited trades?\"\n"

/-- The message list `_rewrite_query` sends to the LLM: system prompt
plus a human message holding the last three history entries and the query. -/
def mkRewriteMessages (query : String) (history : List String) : List PyMsg :=
  let contextStr :=
    if history.isEmpty then ""
    else String.intercalate "\n" ((lastN 3 history).map (fun h => "- " ++ h))
  [PyMsg.system rewriteSystemPrompt,
   PyMsg.human ("Context:\n" ++ contextStr ++ "\n\nQuery: " ++ query ++ "\n\nRewritten query:")]

/-- `AstraDBVectorStore._rewrite_query(query, conversation_history)`.
The LLM collaborator is `llm` (`None` when unavailable); a call may fail,
modelled by `Except.error`, in which case the original query is returned. -/
def rewriteQuery (cfg : KBConfig) (llm : Option (List PyMsg → Except String String))
    (query : String) (history : List String) : String :=
  if !cfg.queryRewriteEnabled then query
  else
    match llm with
    | none => query
    | some invoke =>
      match invoke (mkRewriteMessages query history) with
      | Except.ok content => String.mk (pyStripL content.data)
      | Except.error _ => query

/-! ## Embedding generation (`_generate_embedding`, lines 525–548) -/

/-- The word-truncation applied before the primary embedding call:
texts longer than `maxTokens` words are cut to their first `maxTokens`
whitespace-separated words (shorter texts are passed through verbatim). -/
def truncateWords (maxTokens : Nat) (text : List Char) : List Char :=
  let words := pyWords text
  if words.length > maxTokens then joinSpace (words.take maxTokens) else text

/-- `AstraDBVectorStore._generate_embedding(text)`: the primary watsonx
provider (when configured) receives the truncated text; the
sentence-transformers fallback receives the text unmodified.  Failures of
either call yield `none`. -/
def generateEmbedding (cfg : KBConfig)
    (embeddings : Option (String → Except String (List ℚ)))
    (fallbackModel : String → Except String (List ℚ))
    (text : String) : Option (List ℚ) :=
  match embeddings with
  | some embedQuery =>
    match embedQuery (String.mk (truncateWords cfg.chunkSize text.data)) with
    | Except.ok result => some result
    | Except.error _ => none
  | none =>
    match fallbackModel text with
    | Except.ok v => some v
    | Except.error _ => none

/-! ## Hybrid search (`hybrid_search`, lines 617–795) -/

/-- A candidate returned by a collection's nearest-neighbour `find`:
cosine similarity (`$similarity`), stored text and metadata map. -/
structure Hit where
  similarity : ℚ
  text : String
  metadata : List (String × String)
deriving DecidableEq

/-- Python `metadata.get(k, d)`. -/
def metaGetD (m : List (String × String)) (k d : String) : String :=
  match m.lookup k with
  | some v => v
  | none => d

/-- Python `metadata.get(k)` rendered inside an f-string: a missing key
prints as `None`. -/
def metaGetNone (m : List (String × String)) (k : String) : String :=
  match m.lookup k with
  | some v => v
  | none => "None"

/-- A search result record as appended to `results`. -/
structure ResultRec where
  source : String
  title : String
  body : String
  url : String
  metadata : List (String × String)
  similarity : ℚ
  confidence : Conf
deriving DecidableEq

/-- A citation record as appended to `citations`. -/
structure CitationRec where
  title : String
  source : String
  url : String
  confidence : Conf
deriving DecidableEq

/-- The three vector collections searched by `hybrid_search`. -/
inductive CollTag where
  | trades | emails | compliance
deriving DecidableEq

/-- The result record built for a passing candidate of each collection. -/
def mkResult : CollTag → Hit → Conf → ResultRec
  | CollTag.trades, h, lvl =>
    ⟨"trade_history",
     "Trade: " ++ metaGetD h.metadata "client" "Unknown" ++ " - " ++
       metaGetD h.metadata "ticker" "Unknown",
     h.text,
     "trade://" ++ metaGetD h.metadata "ticket_id" "unknown",
     h.metadata, h.similarity, lvl⟩
  | CollTag.emails, h, lvl =>
    ⟨"email",
     "Email: " ++ metaGetD h.metadata "subject" "No Subject",
     h.text,
     "email://" ++ metaGetD h.metadata "email_id" "unknown",
     h.metadata, h.similarity, lvl⟩
  | CollTag.compliance, h, lvl =>
    ⟨"compliance",
     metaGetD h.metadata "title" "Compliance Document",
     h.text,
     metaGetD h.metadata "url" ("compliance://" ++ metaGetD h.metadata "doc_id" "unknown"),
     h.metadata, h.similarity, lvl⟩

/-- The citation record built for a passing candidate of each collection
(when `include_citations` is set). -/
def mkCitation : CollTag → Hit → Conf → CitationRec
  | CollTag.trades, h, lvl =>
    ⟨"Trade: " ++ metaGetNone h.metadata "client" ++ " - " ++ metaGetNone h.metadata "ticker",
     "Trade History Database",
     "trade://" ++ metaGetNone h.metadata "ticket_id", lvl⟩
  | CollTag.emails, h, lvl =>
    ⟨metaGetD h.metadata "subject" "Email Communication",
     "Email from " ++ metaGetD h.metadata "from" "Unknown",
     "email://" ++ metaGetNone h.metadata "email_id", lvl⟩
  | CollTag.compliance, h, lvl =>
    ⟨metaGetD h.metadata "title" "Compliance Document",
     "Compliance Knowledge Base",
     metaGetD h.metadata "url" ("compliance://" ++ metaGetNone h.metadata "doc_id"), lvl⟩

/-- The citation the code would build from a given result record
(recovering the collection from the `source` field).  Used to state the
1:1 result/citation correspondence of the specification. -/
def citationOf (r : ResultRec) : CitationRec :=
  if r.source = "trade_history" then
    ⟨"Trade: " ++ metaGetNone r.metadata "client" ++ " - " ++ metaGetNone r.metadata "ticker",
     "Trade History Database",
     "trade://" ++ metaGetNone r.metadata "ticket_id", r.confidence⟩
  else if r.source = "email" then
    ⟨metaGetD r.metadata "subject" "Email Communication",
     "Email from " ++ metaGetD r.metadata "from" "Unknown",
     "email://" ++ metaGetNone r.metadata "email_id", r.confidence⟩
  else
    ⟨metaGetD r.metadata "title" "Compliance Document",
     "Compliance Knowledge Base",
     metaGetD r.metadata "url" ("compliance://" ++ metaGetNone r.metadata "doc_id"), r.confidence⟩

/-- One iteration of the per-collection candidate loop of
`hybrid_search`: classify the candidate, and when it passes the
retrieval threshold append its result record (and, when requested, its
citation record). -/
def collStep (threshold : String) (includeCitations : Bool) (tag : CollTag)
    (acc : List ResultRec × List CitationRec) (h : Hit) :
    List ResultRec × List CitationRec :=
  let c := calcConfidence threshold h.similarity
  if c.2 then
    (acc.1 ++ [mkResult tag h c.1],
     if includeCitations then acc.2 ++ [mkCitation tag h c.1] else acc.2)
  else acc

/-- The per-collection loop of `hybrid_search`: classify each candidate,
drop the ones failing the retrieval threshold, and append result and
citation records in scan order. -/
def processColl (threshold : String) (includeCitations : Bool) (tag : CollTag)
    (hits : List Hit) : List ResultRec × List CitationRec :=
  hits.foldl (collStep threshold includeCitations tag) ([], [])

/-- Stable insertion used to model
`results.sort(key=lambda x: x["similarity"], reverse=True)`:
an element moves past entries with greater-or-equal similarity,
so equal similarities keep their original relative order. -/
def insertDesc (x : ResultRec) : List ResultRec → List ResultRec
  | [] => [x]
  | y :: ys => if x.similarity ≤ y.similarity then y :: insertDesc x ys else x :: y :: ys

/-- Stable descending sort by similarity. -/
def sortDesc (l : List ResultRec) : List ResultRec :=
  l.foldl (fun acc x => insertDesc x acc) []

/-- A value of the `metadata` dict returned by `hybrid_search`
(strings and integer counters). -/
inductive SVal where
  | s (v : String)
  | n (v : Nat)
deriving DecidableEq

/-- The dictionary returned by `hybrid_search`. -/
structure SearchOutcome where
  query : String
  rewrittenQuery : String
  results : List ResultRec
  citations : List CitationRec
  metadata : List (String × SVal)
deriving DecidableEq

/-- One conditional collection search of `hybrid_search`
(`if search_type in [key, "all"]`), with the per-collection `except`
that turns a raising `find` (`none`) into no contribution. -/
def collScan (cfg : KBConfig) (searchType : String) (includeCitations : Bool)
    (key : String) (tag : CollTag) (h : Option (List Hit)) :
    List ResultRec × List CitationRec :=
  if searchType == key || searchType == "all" then
    match h with
    | some hs => processColl cfg.retrievalThreshold includeCitations tag hs
    | none => ([], [])
  else ([], [])

/-- All result records appended by the scan phase of `hybrid_search`,
in collection order (trades, emails, compliance), before sorting and
truncation. -/
def scanResults (cfg : KBConfig) (searchType : String) (includeCitations : Bool)
    (trades emails compliance : Option (List Hit)) : List ResultRec :=
  (collScan cfg searchType includeCitations "trades" CollTag.trades trades).1 ++
  (collScan cfg searchType includeCitations "emails" CollTag.emails emails).1 ++
  (collScan cfg searchType includeCitations "compliance" CollTag.compliance compliance).1

/-- All citation records appended by the scan phase of `hybrid_search`,
in collection order, before the `citations_shown` limit. -/
def scanCitations (cfg : KBConfig) (searchType : String) (includeCitations : Bool)
    (trades emails compliance : Option (List Hit)) : List CitationRec :=
  (collScan cfg searchType includeCitations "trades" CollTag.trades trades).2 ++
  (collScan cfg searchType includeCitations "emails" CollTag.emails emails).2 ++
  (collScan cfg searchType includeCitations "compliance" CollTag.compliance compliance).2

/-- `hybrid_search` after the embedding step: per-collection search
(`none` models a collection whose `find` raised, handled by the
per-collection `except` that only logs), threshold filtering, similarity
sort, citation limiting and `max_docs` truncation. -/
def hybridSearchCore (cfg : KBConfig) (searchType : String) (includeCitations : Bool)
    (trades emails compliance : Option (List Hit))
    (query rewrittenQuery : String) : SearchOutcome :=
  let results := scanResults cfg searchType includeCitations trades emails compliance
  let citations := scanCitations cfg searchType includeCitations trades emails compliance
  let sorted := sortDesc results
  let cits := if cfg.citationsShown == 0 then []
              else if 0 < cfg.citationsShown then citations.take cfg.citationsShown.toNat
              else citations
  let finalResults := sorted.take cfg.maxDocsPassedToLLM
  ⟨query, rewrittenQuery, finalResults, cits,
   [("total_results", SVal.n sorted.length),
    ("returned_results", SVal.n finalResults.length),
    ("search_type", SVal.s searchType),
    ("confidence_threshold", SVal.s cfg.retrievalThreshold),
    ("mode", SVal.s cfg.mode)]⟩

/-- `AstraDBVectorStore.hybrid_search`: query rewriting, embedding
(failure, including a falsy empty vector, returns the empty outcome with
an error stat), then the core search.  The three `find` collaborators
receive the embedding and the resolved limit and may raise (`none`). -/
def hybridSearch (cfg : KBConfig)
    (llm : Option (List PyMsg → Except String String))
    (embeddings : Option (String → Except String (List ℚ)))
    (fallbackModel : String → Except String (List ℚ))
    (tradesFind emailsFind complianceFind : List ℚ → Nat → Option (List Hit))
    (query searchType : String) (limit : Option Nat)
    (history : List String) (includeCitations : Bool) : SearchOutcome :=
  let rewrittenQuery := rewriteQuery cfg llm query history
  match generateEmbedding cfg embeddings fallbackModel rewrittenQuery with
  | none =>
    ⟨query, rewrittenQuery, [], [], [("error", SVal.s "Failed to generate embedding")]⟩
  | some embedding =>
    if embedding.isEmpty then
      ⟨query, rewrittenQuery, [], [], [("error", SVal.s "Failed to generate embedding")]⟩
    else
      let lim := limit.getD cfg.searchLimit
      hybridSearchCore cfg searchType includeCitations
        (tradesFind embedding lim) (emailsFind embedding lim) (complianceFind embedding lim)
        query rewrittenQuery

/-! ## Pronoun resolution (`process_with_handoff`, mcp_server.py 2221–2252) -/

/-- The pronoun list of the short-term-memory block, in source order. -/
def pronounsList : List String := ["his", "her", "their", "he", "she", "they", "him"]

/-- The pronoun-detection test:
`f' {pronoun} ' in f' {query_lower} ' or query_lower.startswith(f'{pronoun} ')`
over all pronouns, where `query_lower = query.lower().strip()`. -/
def hasPronoun (query : String) : Bool :=
  let ql := pyLowerStrip query
  pronounsList.any (fun p =>
    strIn (" " ++ p ++ " ") (" " ++ ql ++ " ") || isPrefixCh (p ++ " ").data ql.data)

/-- Case-insensitive prefix match of a lowercase pattern. -/
def ciMatchAtHead : List Char → List Char → Bool
  | [], _ => true
  | _ :: _, [] => false
  | p :: ps, c :: cs => p == c.toLower && ciMatchAtHead ps cs

/-- `re.sub(rf'\b{pat}\b', repl, s, flags=re.IGNORECASE)` for an
all-letter pattern `pat`: scan left to right; at a position whose
preceding character is not a word character, where the pattern matches
case-insensitively and the following character (if any) is not a word
character, emit `repl` and continue after the matched text.  The `Nat`
argument counts original characters still to skip after a replacement. -/
def subWordAux (pat repl : List Char) : Nat → Char → List Char → List Char
  | Nat.succ _, _, [] => []
  | Nat.succ k, _, c :: rest => subWordAux pat repl k c rest
  | 0, _, [] => []
  | 0, prev, c :: rest =>
    if !isWordChar prev && ciMatchAtHead pat (c :: rest) &&
       (match (c :: rest).drop pat.length with
        | [] => true
        | d :: _ => !isWordChar d) then
      repl ++ subWordAux pat repl (pat.length - 1) c rest
    else
      c :: subWordAux pat repl 0 c rest

/-- Word-bounded case-insensitive substitution on strings. -/
def pySubWord (pat repl s : String) : String :=
  String.mk (subWordAux (lowerL pat.data) repl.data 0 ' ' s.data)

/-- The replacement chosen for each pronoun: possessive pronouns
(his/her/their) become the client name plus `'s`; subject and object
pronouns (he/she/they/him) become the bare client name. -/
def pronounRepl (lastClient p : String) : String :=
  if p == "his" || p == "her" || p == "their" then lastClient ++ aposS ++ "s"
  else lastClient

/-- The short-term-memory pronoun block of `process_with_handoff`:
if the lowercased message contains a pronoun and a last client is in
shared memory, substitute every pronoun; otherwise pass the message
through unchanged. -/
def resolvePronouns (lastClient : Option String) (query : String) : String :=
  if hasPronoun query then
    match lastClient with
    | some name => pronounsList.foldl (fun q p => pySubWord p (pronounRepl name p) q) query
    | none => query
  else query

/-! ## Agent `can_handle` predicates and routing (mcp_server.py) -/

/-- `TradeParserAgent.can_handle` (lines 1095–1112). -/
def tradeParserCanHandle (query : String) : Bool :=
  let ql := String.mk (lowerL query.data)
  if decide (wcS query > 15) &&
     (["client", "trade", "shares", "ticker", "stock"].any (fun k => strIn k ql)) then
    true
  else
    ["log trade", "trade ticket", "ticket reference", "emergency log",
     "client called", "bought", "sold", "buy", "sell",
     "shares", "position", "market order", "limit order",
     "solicited", "unsolicited", "compliance review"].any (fun k => strIn k ql)

/-- The calendar/reminder/cancel keywords of `GmailAgent.can_handle`. -/
def calendarKeywords : List String :=
  ["reminder", "remind me", "set a reminder", "create reminder", "remainder",
   "schedule", "meeting", "calendar", "set me a", "add to calendar", "add me",
   "google calendar", "gcal", "gcalender", "calender",
   "cancel meeting", "delete meeting", "cancel all", "remove meeting"]

/-- The cancel-specific subset of `calendarKeywords` (the
calendar-cancel pattern named by the dispatch-priority property). -/
def cancelKeywords : List String :=
  ["cancel meeting", "delete meeting", "cancel all", "remove meeting"]

/-- `[a-z]+` run at the head of a character list. -/
def takeLowerAlpha (l : List Char) : List Char :=
  l.takeWhile (fun c => 'a' ≤ c && c ≤ 'z')

/-- Continuation of the Gmail name regex after the optional
`(?:lets?|let's)` part: `\s*(?:gmail|email|mail)\s+([a-z]+(?:\s+[a-z]+)?)`.
Returns the text matched by the capture group. -/
def gmailAfterOpt (s : List Char) : Option (List Char) :=
  let s1 := s.dropWhile isPySpace
  let rest2 :=
    if isPrefixCh "gmail".data s1 then some (s1.drop 5)
    else if isPrefixCh "email".data s1 then some (s1.drop 5)
    else if isPrefixCh "mail".data s1 then some (s1.drop 4)
    else none
  match rest2 with
  | none => none
  | some r =>
    let sp := r.takeWhile isPySpace
    if sp.isEmpty then none
    else
      let r2 := r.drop sp.length
      let w1 := takeLowerAlpha r2
      if w1.isEmpty then none
      else
        let r3 := r2.drop w1.length
        let sp2 := r3.takeWhile isPySpace
        let w2 := takeLowerAlpha (r3.drop sp2.length)
        if !sp2.isEmpty && !w2.isEmpty then some (w1 ++ sp2 ++ w2)
        else some w1

/-- One attempt of the Gmail name regex at a fixed position: the `\b`
word-boundary test against the previous character, then the optional
`lets`/`let`/`let's` prefix in regex preference order. -/
def gmailTryAt (prev : Char) (s : List Char) : Option (List Char) :=
  match s with
  | [] => none
  | c :: _ =>
    if isWordChar prev == isWordChar c then none
    else
      ((if isPrefixCh "lets".data s then [s.drop 4] else []) ++
       (if isPrefixCh "let".data s then [s.drop 3] else []) ++
       (if isPrefixCh ("let" ++ aposS ++ "s").data s then [s.drop 5] else []) ++
       [s]).findSome? gmailAfterOpt

/-- `re.search(r'\b(?:lets?|let\'s)?\s*(?:gmail|email|mail)\s+([a-z]+(?:\s+[a-z]+)?)', ql)`:
leftmost match, returning the capture group. -/
def gmailSearchName : Char → List Char → Option (List Char)
  | _, [] => none
  | prev, c :: rest =>
    match gmailTryAt prev (c :: rest) with
    | some g => some g
    | none => gmailSearchName c rest

/-- `GmailAgent.can_handle` (lines 317–371). -/
def gmailCanHandle (available : Bool) (query : String) : Bool :=
  if !available then false
  else
    let ql := pyLowerStrip query
    if calendarKeywords.any (fun k => strIn k ql) then true
    else if (["what is", "whats", "what" ++ aposS ++ "s", "show me the email",
              "get the email", "find email", "tell me the email",
              "give me the email", "display email"].any
              (fun k => strIn k ql && (strIn "email" ql || strIn "mail" ql))) then false
    else if (["mail her", "mail him", "mail them",
              "email her", "email him", "email them"].any (fun k => strIn k ql)) then true
    else
      match gmailSearchName ' ' ql.data with
      | some g =>
        let potentialName := String.mk (pyStripL g)
        if !(["the", "a", "an", "it", "me", "us",
              "regarding", "about", "with"].contains potentialName) then true
        else
          ["send email", "send mail", "send a mail", "send an email",
           "lets mail", "let" ++ aposS ++ "s mail", "lets gmail", "let" ++ aposS ++ "s gmail",
           "lets email", "let" ++ aposS ++ "s email", "write to", "compose email",
           "draft email", "notify via email"].any (fun k => strIn k ql)
      | none =>
        ["send email", "send mail", "send a mail", "send an email",
         "lets mail", "let" ++ aposS ++ "s mail", "lets gmail", "let" ++ aposS ++ "s gmail",
         "lets email", "let" ++ aposS ++ "s email", "write to", "compose email",
         "draft email", "notify via email"].any (fun k => strIn k ql)

/-- `ExcelAgent.can_handle` (lines 1408–1440). -/
def excelCanHandle (available : Bool) (query : String) : Bool :=
  if !available then false
  else
    let ql := String.mk (lowerL query.data)
    if decide (wcS query > 15) &&
       (["emergency log", "ticket reference", "demanded", "executed",
         "unsolicited", "solicited"].any (fun k => strIn k ql)) then false
    else if (["open", "show me the", "display", "view"].any (fun k => strIn k ql)) &&
            (["csv", "excel", "spreadsheet", "file", "blotter"].any (fun k => strIn k ql)) then
      true
    else if (["what", "whats", "what" ++ aposS ++ "s", "show", "get", "find",
              "tell me", "give me"].any (fun k => strIn k ql)) &&
            (strIn "email" ql || strIn "mail" ql) then
      true
    else
      ["show", "data", "table", "csv", "excel", "client", "trade", "blotter",
       "account", "ticker", "follow up", "meeting"].any (fun k => strIn k ql)

/-- `alts` matched somewhere after zero or more non-newline characters
(the `.*(?:...)` tail of the finance question patterns). -/
def dotStarThen (alts : List String) : List Char → Bool
  | [] => false
  | c :: r =>
    alts.any (fun a => isPrefixCh a.data (c :: r)) ||
    (c != Char.ofNat 10 && dotStarThen alts r)

/-- `re.search(lead + '.*(?:' + alts + ')', s)` for a literal lead. -/
def seqSearch (lead : String) (alts : List String) : List Char → Bool
  | [] => false
  | c :: r =>
    (isPrefixCh lead.data (c :: r) && dotStarThen alts ((c :: r).drop lead.data.length)) ||
    seqSearch lead alts r

/-- `alts` matched after zero or more further whitespace characters. -/
def afterSpacesAlt (bs : List String) : List Char → Bool
  | [] => false
  | c :: r =>
    bs.any (fun b => isPrefixCh b.data (c :: r)) || (isPySpace c && afterSpacesAlt bs r)

/-- `\s+(?:...)`: at least one whitespace character, then an alternative. -/
def spacesThenAlt (bs : List String) : List Char → Bool
  | [] => false
  | c :: r => isPySpace c && afterSpacesAlt bs r

/-- `re.search(r'(?:as)\s+(?:bs)', s)` for literal alternative sets. -/
def altSpacesAlt (as bs : List String) : List Char → Bool
  | [] => false
  | c :: r =>
    (as.any (fun a => isPrefixCh a.data (c :: r) && spacesThenAlt bs ((c :: r).drop a.data.length))) ||
    altSpacesAlt as bs r

/-- `FinanceAgent.can_handle` (lines 1737–1773). -/
def financeCanHandle (available : Bool) (query : String) : Bool :=
  if !available then false
  else
    let ql := String.mk (lowerL query.data)
    if (["stock", "price", "ticker", "share", "quote", "trading",
         "market", "nasdaq", "nyse", "dow", "index",
         "aapl", "apple", "tsla", "tesla", "msft", "microsoft",
         "googl", "google", "amzn", "amazon", "rivn", "rivian",
         "nvda", "nvidia", "meta", "ibm", "pltr", "palantir"] ++
        ["bank", "finance", "invest", "portfolio", "dividend",
         "earnings", "revenue", "profit", "valuation", "pe ratio",
         "market cap", "analyst", "rating", "forecast"]).any (fun k => strIn k ql) then
      true
    else
      seqSearch "what" ["stock", "price", "trading"] ql.data ||
      seqSearch "how" ["stock", "market", "trading"] ql.data ||
      altSpacesAlt ["compare", "vs"] ["stock", "share"] ql.data ||
      altSpacesAlt ["buy", "sell"] ["stock", "share"] ql.data

/-- `ComplianceAgent.can_handle` (lines 1928–1942). -/
def complianceCanHandle (available : Bool) (query : String) : Bool :=
  if !available then false
  else
    let ql := String.mk (lowerL query.data)
    ["compliance", "regulation", "rule", "policy",
     "churning", "solicited", "unsolicited", "risk",
     "guideline", "procedure", "what is", "define",
     "profile", "history", "search", "find trades",
     "client background", "past trades"].any (fun k => strIn k ql)

/-- The capability agents reachable from `route_query`. -/
inductive Agent where
  | gmail | excel | finance | compliance | tradeParser
deriving DecidableEq, Repr

/-- Availability flags of the optional agents (the trade parser is
always available). -/
structure AgentAvail where
  gmail : Bool
  excel : Bool
  finance : Bool
  compliance : Bool
deriving DecidableEq

/-- `CoordinatorAgent.route_query` (lines 2093–2118): trade parser
first, then Gmail, then the remaining agents in registry order
(Excel, Finance, Compliance), defaulting to the Excel agent. -/
def routeQuery (av : AgentAvail) (query : String) : Agent :=
  if tradeParserCanHandle query then Agent.tradeParser
  else if gmailCanHandle av.gmail query then Agent.gmail
  else if excelCanHandle av.excel query then Agent.excel
  else if financeCanHandle av.finance query then Agent.finance
  else if complianceCanHandle av.compliance query then Agent.compliance
  else Agent.excel

/-- The conversational small-talk gate at the head of
`process_with_handoff` (greeting, identity, date/time, gratitude). -/
def isSmallTalk (query : String) : Bool :=
  let ql := pyLowerStrip query
  (["hello", "hi", "hey", "good morning", "good afternoon", "good evening",
    "greetings", "howdy"].any (fun p => strIn p ql) && decide (wcS query ≤ 3)) ||
  (["who are you", "what are you", "who r u", "what r u",
    "tell me about yourself", "introduce yourself",
    "what can you do", "what do you do", "your name",
    "are you ai", "are you a bot", "are you human"].any (fun p => strIn p ql)) ||
  (["what is date", "what is time", "what is the date", "what is the time",
    "whats the date", "whats the time", "current date", "current time",
    "what date", "what time", "today date", "todays date",
    "date and time"].any (fun p => strIn p ql)) ||
  (["thank you", "thanks", "thx", "ty", "appreciate it",
    "appreciate"].any (fun p => strIn p ql) && decide (wcS query ≤ 5))

/-- Outcome of the classification phase of `process_with_handoff`. -/
inductive Routed where
  | conversational
  | agent (a : Agent)
deriving DecidableEq

/-- The classification pipeline of `process_with_handoff`: small talk is
answered inline; otherwise pronouns are resolved against the shared
memory and the rewritten query is routed.  Returns the routing decision
and the (possibly rewritten) message handed to the selected agent. -/
def classifyMessage (av : AgentAvail) (lastClient : Option String)
    (query : String) : Routed × String :=
  if isSmallTalk query then (Routed.conversational, query)
  else
    let q2 := resolvePronouns lastClient query
    (Routed.agent (routeQuery av q2), q2)

/-! ## Short-term memory buffer (memory_tools.py, lines 21–113) -/

/-- `SHORT_TERM_LIMIT = 10`. -/
def SHORT_TERM_LIMIT : Nat := 10

/-- A short-term memory entry as built by `add_to_short_term`. -/
structure MemoryEntry where
  role : String
  content : String
  timestamp : String
  metadata : List (String × String)
deriving DecidableEq

/-- `deque.append` on a deque with `maxlen`: append on the right and
evict from the left while over capacity. -/
def dequeAppend (maxlen : Nat) (buf : List α) (e : α) : List α :=
  let b := buf ++ [e]
  b.drop (b.length - maxlen)

/-- `MemoryManager.add_to_short_term`: append the entry to the bounded
buffer (the disk mirror carries the same list and is not modelled). -/
def addToShortTerm (buf : List MemoryEntry) (e : MemoryEntry) : List MemoryEntry :=
  dequeAppend SHORT_TERM_LIMIT buf e

/-- `deque(memories, maxlen=SHORT_TERM_LIMIT)` in `_load_short_term`:
keeps the last ten stored entries. -/
def loadShortTerm (memories : List MemoryEntry) : List MemoryEntry :=
  memories.drop (memories.length - SHORT_TERM_LIMIT)

/-! ## Derived notions and concrete inputs used by the theorems -/

/-- Total word count of a sentence list (`sum(len(s.split()) for s in parts)`). -/
def sumWc (parts : List (List Char)) : Nat := (parts.map wcL).sum

/-- Two adjacent chunks overlap: whenever the earlier chunk holds more
than one sentence, some sentence occurs in both. -/
def chunkOverlapOK (a b : List (List Char)) : Prop :=
  1 < a.length → ∃ s, s ∈ a ∧ s ∈ b

/-- The chunk records `_chunk_text` builds from a list of
sentence-chunks starting at chunk id `i`: joined text, title, position. -/
def projChunksFrom (title : String) : Nat → List (List (List Char)) → List ChunkRec
  | _, [] => []
  | i, c :: rest => ⟨String.mk (joinSpace c), title, i⟩ :: projChunksFrom title (i + 1) rest

/-- The chunk records `_chunk_text` builds from a list of
sentence-chunks: joined text, title, and positional chunk id. -/
def projChunks (title : String) (chS : List (List (List Char))) : List ChunkRec :=
  projChunksFrom title 0 chS

/-- A 300-word sentence of `a`s. -/
def sentA : String := String.mk (joinSpace (List.replicate 299 ['a'] ++ [['a', '.']]))

/-- A 300-word sentence of `b`s. -/
def sentB : String := String.mk (joinSpace (List.replicate 299 ['b'] ++ [['b', '.']]))

/-- A 600-word two-sentence text: each sentence fits a chunk alone, so
no overlap is seeded. -/
def chunkDocT : String := sentA ++ " " ++ sentB

/-- A single 600-word sentence. -/
def sentLong : String := String.mk (joinSpace (List.replicate 599 ['c'] ++ [['c', '.']]))

/-- A 601-word text whose first sentence alone exceeds the chunk size. -/
def chunkDocU : String := sentLong ++ " End."

/-- A 601-word text, used to exhibit the missing truncation on the
fallback path. -/
def words601 : String := String.mk (joinSpace (List.replicate 601 ['w']))

/-- A passing trade candidate with moderate similarity. -/
def tradeHitA : Hit :=
  ⟨mkRat 7 10, "alice tsla trade", [("client", "Alice"), ("ticker", "TSLA"), ("ticket_id", "T1")]⟩

/-- A passing email candidate with near-perfect similarity. -/
def emailHitB : Hit :=
  ⟨mkRat 19 20, "bob email", [("subject", "Hello"), ("from", "Bob"), ("email_id", "E1")]⟩

/-- A concrete `hybrid_search` call over both collections with
citations requested and the shipped configuration. -/
def c1Call : SearchOutcome :=
  hybridSearch KNOWLEDGE_BASE_CONFIG none (some fun _ => Except.ok [1])
    (fun _ => Except.error "unavailable")
    (fun _ _ => some [tradeHitA]) (fun _ _ => some [emailHitB]) (fun _ _ => some [])
    "tsla trades" "all" none [] true

/-- A concrete scope-`all` call where the trade collection raises and
the email collection returns one passing candidate. -/
def c2Call : SearchOutcome :=
  hybridSearch KNOWLEDGE_BASE_CONFIG none (some fun _ => Except.ok [1])
    (fun _ => Except.error "unavailable")
    (fun _ _ => none) (fun _ _ => some [emailHitB]) (fun _ _ => some [])
    "client emails" "all" none [] true

/-! ## Shared helper lemmas -/

/-- The pass flag of `_calculate_confidence` is the comparison of the
similarity with the configured numeric floor, whatever the label. -/
theorem calcConfidence_snd (t : String) (s : ℚ) :
    (calcConfidence t s).2 = decide (thresholdFloor t ≤ s) := by
  simp only [calcConfidence]
  split_ifs <;> rfl

/-- The label of `_calculate_confidence` ignores the configured level. -/
theorem calcConfidence_fst_indep (t u : String) (s : ℚ) :
    (calcConfidence t s).1 = (calcConfidence u s).1 := by
  simp only [calcConfidence]
  split_ifs <;> rfl

/-- Without a last client in shared memory the pronoun block never
modifies the message. -/
theorem resolvePronouns_none (q : String) : resolvePronouns none q = q := by
  unfold resolvePronouns
  split <;> rfl

/-- `mkRat` renderings of the numeric literals of the source, as plain
fractions. -/
theorem mkRat_val_9_10 : mkRat 9 10 = (9 : ℚ)/10 := by
  norm_num [Rat.mkRat_eq_divInt, Rat.divInt_eq_div]

/-- `0.8` as a fraction. -/
theorem mkRat_val_4_5 : mkRat 4 5 = (4 : ℚ)/5 := by
  norm_num [Rat.mkRat_eq_divInt, Rat.divInt_eq_div]

/-- `0.7` as a fraction. -/
theorem mkRat_val_7_10 : mkRat 7 10 = (7 : ℚ)/10 := by
  norm_num [Rat.mkRat_eq_divInt, Rat.divInt_eq_div]

/-- `0.6` as a fraction. -/
theorem mkRat_val_3_5 : mkRat 3 5 = (3 : ℚ)/5 := by
  norm_num [Rat.mkRat_eq_divInt, Rat.divInt_eq_div]

/-- `0.5` as a fraction. -/
theorem mkRat_val_1_2 : mkRat 1 2 = (1 : ℚ)/2 := by
  norm_num [Rat.mkRat_eq_divInt, Rat.divInt_eq_div]

/-- `0.75` as a fraction. -/
theorem mkRat_val_3_4 : mkRat 3 4 = (3 : ℚ)/4 := by
  norm_num [Rat.mkRat_eq_divInt, Rat.divInt_eq_div]

/-- `0.85` as a fraction. -/
theorem mkRat_val_17_20 : mkRat 17 20 = (17 : ℚ)/20 := by
  norm_num [Rat.mkRat_eq_divInt, Rat.divInt_eq_div]

/-! ## C5 — confidence classifier -/

/-- C5 (confirmed): the confidence label depends only on the similarity
(≥0.9 Highest, ≥0.8 High, ≥0.7 Moderate, ≥0.6 Low, else Very Low) and
never on the configured threshold level, while the pass flag compares the
similarity against the configured floor (Off=0.0, Lowest=0.5, Low=0.6,
High=0.75, Highest=0.85). -/
theorem C5_confidence_classifier (s : ℚ) (t u : String) :
    (calcConfidence t s).1 = (calcConfidence u s).1 ∧
    ((calcConfidence t s).1 = Conf.highest ↔ 9/10 ≤ s) ∧
    ((calcConfidence t s).1 = Conf.high ↔ 4/5 ≤ s ∧ s < 9/10) ∧
    ((calcConfidence t s).1 = Conf.moderate ↔ 7/10 ≤ s ∧ s < 4/5) ∧
    ((calcConfidence t s).1 = Conf.low ↔ 3/5 ≤ s ∧ s < 7/10) ∧
    ((calcConfidence t s).1 = Conf.veryLow ↔ s < 3/5) ∧
    (calcConfidence "Off" s).2 = decide ((0 : ℚ) ≤ s) ∧
    (calcConfidence "Lowest" s).2 = decide ((1 : ℚ)/2 ≤ s) ∧
    (calcConfidence "Low" s).2 = decide ((3 : ℚ)/5 ≤ s) ∧
    (calcConfidence "High" s).2 = decide ((3 : ℚ)/4 ≤ s) ∧
    (calcConfidence "Highest" s).2 = decide ((17 : ℚ)/20 ≤ s) := by
  refine ⟨calcConfidence_fst_indep t u s, ?_, ?_, ?_, ?_, ?_, ?_, ?_, ?_, ?_, ?_⟩
  · simp only [calcConfidence, mkRat_val_9_10, mkRat_val_4_5, mkRat_val_7_10, mkRat_val_3_5]
    split_ifs with h1 h2 h3 h4 <;>
      first
        | exact iff_of_true rfl (by linarith)
        | exact iff_of_false (by decide) (by intro hh; linarith)
  · simp only [calcConfidence, mkRat_val_9_10, mkRat_val_4_5, mkRat_val_7_10, mkRat_val_3_5]
    split_ifs with h1 h2 h3 h4 <;>
      first
        | exact iff_of_true rfl (by constructor <;> linarith)
        | exact iff_of_false (by decide) (by rintro ⟨ha, hb⟩; linarith)
  · simp only [calcConfidence, mkRat_val_9_10, mkRat_val_4_5, mkRat_val_7_10, mkRat_val_3_5]
    split_ifs with h1 h2 h3 h4 <;>
      first
        | exact iff_of_true rfl (by constructor <;> linarith)
        | exact iff_of_false (by decide) (by rintro ⟨ha, hb⟩; linarith)
  · simp only [calcConfidence, mkRat_val_9_10, mkRat_val_4_5, mkRat_val_7_10, mkRat_val_3_5]
    split_ifs with h1 h2 h3 h4 <;>
      first
        | exact iff_of_true rfl (by constructor <;> linarith)
        | exact iff_of_false (by decide) (by rintro ⟨ha, hb⟩; linarith)
  · simp only [calcConfidence, mkRat_val_9_10, mkRat_val_4_5, mkRat_val_7_10, mkRat_val_3_5]
    split_ifs with h1 h2 h3 h4 <;>
      first
        | exact iff_of_true rfl (by linarith)
        | exact iff_of_false (by decide) (by intro hh; linarith)
  · rw [calcConfidence_snd]
    rw [show thresholdFloor "Off" = (0 : ℚ) from by unfold thresholdFloor; rw [if_pos rfl]]
  · rw [calcConfidence_snd]
    rw [show thresholdFloor "Lowest" = (1 : ℚ)/2 from by
      unfold thresholdFloor; rw [if_neg (by decide), if_pos rfl]; exact mkRat_val_1_2]
  · rw [calcConfidence_snd]
    rw [show thresholdFloor "Low" = (3 : ℚ)/5 from by
      unfold thresholdFloor; rw [if_neg (by decide), if_neg (by decide), if_pos rfl]
      exact mkRat_val_3_5]
  · rw [calcConfidence_snd]
    rw [show thresholdFloor "High" = (3 : ℚ)/4 from by
      unfold thresholdFloor
      rw [if_neg (by decide), if_neg (by decide), if_neg (by decide), if_pos rfl]
      exact mkRat_val_3_4]
  · rw [calcConfidence_snd]
    rw [show thresholdFloor "Highest" = (17 : ℚ)/20 from by
      unfold thresholdFloor
      rw [if_neg (by decide), if_neg (by decide), if_neg (by decide), if_neg (by decide),
        if_pos rfl]
      exact mkRat_val_17_20]

/-! ## C9 — bounded short-term buffer -/

/-- One bounded append never leaves more than `maxlen` entries. -/
theorem dequeAppend_length (maxlen : Nat) (buf : List α) (e : α) :
    (dequeAppend maxlen buf e).length = min maxlen (buf.length + 1) := by
  unfold dequeAppend
  simp [List.length_drop]
  omega

/-- C9 (confirmed): the short-term buffer never exceeds ten entries —
after any sequence of `add_to_short_term` calls starting from a buffer
within the bound the length stays at most ten; a full buffer evicts its
oldest entry first; and `_load_short_term` also trims to the bound. -/
theorem C9_short_term_bound (init : List MemoryEntry)
    (h : init.length ≤ SHORT_TERM_LIMIT) (ops : List MemoryEntry) :
    (ops.foldl addToShortTerm init).length ≤ SHORT_TERM_LIMIT ∧
    (∀ buf : List MemoryEntry, ∀ e, buf.length = SHORT_TERM_LIMIT →
      addToShortTerm buf e = buf.tail ++ [e]) ∧
    (∀ stored : List MemoryEntry, (loadShortTerm stored).length ≤ SHORT_TERM_LIMIT) := by
  refine ⟨?_, ?_, ?_⟩
  · induction ops generalizing init with
    | nil => simpa using h
    | cons e ops ih =>
      refine ih (addToShortTerm init e) ?_
      unfold addToShortTerm
      rw [dequeAppend_length]
      exact Nat.min_le_left _ _
  · intro buf e hlen
    unfold addToShortTerm dequeAppend
    have h1 : (buf ++ [e]).length - SHORT_TERM_LIMIT = 1 := by
      simp [hlen]
    show List.drop ((buf ++ [e]).length - SHORT_TERM_LIMIT) (buf ++ [e]) = buf.tail ++ [e]
    rw [h1, @List.drop_append_of_le_length _ buf [e] 1 (by rw [hlen]; decide), List.drop_one]
  · intro stored
    unfold loadShortTerm
    simp [List.length_drop]
    omega

/-- Witness for C9 at a concrete over-full history: twelve appends onto
the empty buffer stay within the bound. -/
theorem C9_short_term_bound_witness :
    ((List.replicate 12 (⟨"user", "hi", "t0", []⟩ : MemoryEntry)).foldl
      addToShortTerm []).length ≤ SHORT_TERM_LIMIT :=
  (C9_short_term_bound [] (by simp) _).1

/-! ## C6 — query rewriting never raises -/

/-- `lastN n` of a list is empty exactly when the list is (for `n > 0`). -/
theorem lastN_eq_nil_iff (n : Nat) (hn : 0 < n) (l : List α) :
    lastN n l = [] ↔ l = [] := by
  unfold lastN
  constructor
  · intro h
    have hlen := congrArg List.length h
    simp only [List.length_drop, List.length_nil] at hlen
    exact List.eq_nil_of_length_eq_zero (by omega)
  · rintro rfl
    simp [List.drop]

/-- C6 (confirmed): `_rewrite_query` returns the query unchanged when
rewriting is disabled or the LLM collaborator is missing, returns the
query unchanged when the collaborator raises, returns the trimmed LLM
output on success, and consults at most the last three history entries
(two histories with equal last-three windows yield identical results);
as a total function it never raises to its caller. -/
theorem C6_rewrite_query (cfg : KBConfig) (llm : Option (List PyMsg → Except String String))
    (q : String) (hist : List String) :
    ((cfg.queryRewriteEnabled = false ∨ llm = none) → rewriteQuery cfg llm q hist = q) ∧
    (∀ f e, llm = some f → f (mkRewriteMessages q hist) = Except.error e →
      rewriteQuery cfg llm q hist = q) ∧
    (∀ f r, cfg.queryRewriteEnabled = true → llm = some f →
      f (mkRewriteMessages q hist) = Except.ok r →
      rewriteQuery cfg llm q hist = String.mk (pyStripL r.data)) ∧
    (∀ hist₂, lastN 3 hist = lastN 3 hist₂ →
      rewriteQuery cfg llm q hist = rewriteQuery cfg llm q hist₂) := by
  refine ⟨?_, ?_, ?_, ?_⟩
  · rintro (h | h)
    · simp [rewriteQuery, h]
    · subst h
      cases hq : cfg.queryRewriteEnabled <;> simp [rewriteQuery, hq]
  · intro f e hf herr
    subst hf
    cases hq : cfg.queryRewriteEnabled <;> simp [rewriteQuery, hq, herr]
  · intro f r he hf hok
    subst hf
    simp [rewriteQuery, he, hok]
  · intro hist₂ hl
    have h0 : hist = [] ↔ hist₂ = [] := by
      rw [← lastN_eq_nil_iff 3 (by norm_num) hist, ← lastN_eq_nil_iff 3 (by norm_num) hist₂, hl]
    have hm : mkRewriteMessages q hist = mkRewriteMessages q hist₂ := by
      by_cases hh : hist = []
      · have hh2 : hist₂ = [] := h0.mp hh
        subst hh; subst hh2; rfl
      · have hh2 : hist₂ ≠ [] := fun hx => hh (h0.mpr hx)
        have e1 : hist.isEmpty = false := by
          cases hist with
          | nil => exact absurd rfl hh
          | cons a l => rfl
        have e2 : hist₂.isEmpty = false := by
          cases hist₂ with
          | nil => exact absurd rfl hh2
          | cons a l => rfl
        simp [mkRewriteMessages, e1, e2, hl]
    simp [rewriteQuery, hm]

/-- Witness for C6: with rewriting enabled but no collaborator the
query comes back untouched. -/
theorem C6_rewrite_query_witness :
    rewriteQuery KNOWLEDGE_BASE_CONFIG none "q0" [] = "q0" :=
  (C6_rewrite_query KNOWLEDGE_BASE_CONFIG none "q0" []).1 (Or.inr rfl)

/-! ## C7 — pronoun resolution -/

/-- C7 (confirmed): with no entity in context the message passes through
unmodified; without a detected pronoun nothing changes; with
`last_entity_name = "Jane Doe"` the message `"email her about the trade"`
is rewritten with `"Jane Doe's"` in place of the possessive `"her"`
(hence contains `"Jane Doe"`), and subject pronouns are replaced by the
bare name. -/
theorem C7_pronoun_resolution (q : String) (ctx : Option String) :
    resolvePronouns none q = q ∧
    (hasPronoun q = false → resolvePronouns ctx q = q) ∧
    resolvePronouns (some "Jane Doe") "email her about the trade" =
      "email Jane Doe" ++ aposS ++ "s about the trade" ∧
    resolvePronouns (some "Bob") "He called her" =
      "Bob called Bob" ++ aposS ++ "s" := by
  refine ⟨resolvePronouns_none q, ?_, by decide, by decide⟩
  intro h
  simp [resolvePronouns, h]

/-- Witness for C7 at a pronoun-free message: the context entity does
not alter it. -/
theorem C7_pronoun_resolution_witness :
    hasPronoun "show the blotter" = false ∧
    resolvePronouns (some "Jane Doe") "show the blotter" = "show the blotter" :=
  ⟨by decide, (C7_pronoun_resolution "show the blotter" (some "Jane Doe")).2.1 (by decide)⟩

/-! ## C8 — dispatch priority -/

/-- C8 counterexample: `"cancel meeting sold"` matches the
calendar-cancel pattern and the Excel data-lookup pattern, yet the
dispatcher routes it to the trade parser, because the trade-parser
predicate is evaluated before the calendar one. -/
theorem C8_counterexample :
    cancelKeywords.any (fun k => strIn k (pyLowerStrip "cancel meeting sold")) = true ∧
    excelCanHandle true "cancel meeting sold" = true ∧
    (classifyMessage ⟨true, true, true, true⟩ none "cancel meeting sold").1 =
      Routed.agent Agent.tradeParser := by
  refine ⟨by decide, by decide, by decide⟩

/-- C8 (corrected): the dispatcher checks small talk, then the
trade-parser predicate, then the calendar/email predicate, then the
remaining agents, defaulting to data lookup; a message matching both the
calendar-cancel pattern and the data-lookup pattern routes to the
calendar handler provided the trade-parser predicate does not match. -/
theorem C8_dispatch_amended (av : AgentAvail) (q : String)
    (hg : av.gmail = true)
    (hs : isSmallTalk q = false)
    (ht : tradeParserCanHandle q = false)
    (hc : cancelKeywords.any (fun k => strIn k (pyLowerStrip q)) = true)
    (_he : excelCanHandle av.excel q = true) :
    (classifyMessage av none q).1 = Routed.agent Agent.gmail := by
  have hcal : calendarKeywords.any (fun k => strIn k (pyLowerStrip q)) = true := by
    rcases List.any_eq_true.mp hc with ⟨k, hk, hstr⟩
    refine List.any_eq_true.mpr ⟨k, ?_, hstr⟩
    fin_cases hk <;> decide
  have hgm : gmailCanHandle av.gmail q = true := by
    rw [hg]
    simp [gmailCanHandle, hcal]
  simp [classifyMessage, hs, resolvePronouns_none, routeQuery, ht, hgm]

/-- Witness for C8's amended statement: a cancel-plus-data message with
no trade keywords reaches the Gmail (calendar) agent. -/
theorem C8_dispatch_amended_witness :
    (classifyMessage ⟨true, true, true, true⟩ none "cancel meeting with client").1 =
      Routed.agent Agent.gmail :=
  C8_dispatch_amended ⟨true, true, true, true⟩ "cancel meeting with client"
    rfl (by decide) (by decide) (by decide) (by decide)

/-! ## C10 — embedding truncation -/

/-- Every word produced by `split()` is non-empty and whitespace-free. -/
theorem pyWordsAux_words (l : List Char) :
    ∀ cur, (∀ c ∈ cur, isPySpace c = false) →
      ∀ w ∈ pyWordsAux cur l, w ≠ [] ∧ ∀ c ∈ w, isPySpace c = false := by
  induction l with
  | nil =>
    intro cur hcur w hw
    unfold pyWordsAux at hw
    by_cases hc : cur.isEmpty
    · simp [hc] at hw
    · simp [hc] at hw
      subst hw
      refine ⟨by simpa using fun h => hc (by simp [h]), ?_⟩
      intro c hcmem
      exact hcur c (by simpa using hcmem)
  | cons c rest ih =>
    intro cur hcur w hw
    unfold pyWordsAux at hw
    by_cases hsp : isPySpace c
    · rw [if_pos hsp] at hw
      by_cases hc : cur.isEmpty
      · rw [if_pos hc] at hw
        exact ih [] (by simp) w hw
      · rw [if_neg hc] at hw
        rcases List.mem_cons.mp hw with hrev | htail
        · subst hrev
          refine ⟨by simpa using fun h => hc (by simp [h]), ?_⟩
          intro d hd
          exact hcur d (by simpa using hd)
        · exact ih [] (by simp) w htail
    · rw [if_neg hsp] at hw
      refine ih (c :: cur) ?_ w hw
      intro d hd
      rcases List.mem_cons.mp hd with rfl | hd2
      · simpa using hsp
      · exact hcur d hd2

/-- Words of `split()` are non-empty and whitespace-free. -/
theorem pyWords_words (l : List Char) :
    ∀ w ∈ pyWords l, w ≠ [] ∧ ∀ c ∈ w, isPySpace c = false :=
  pyWordsAux_words l [] (by simp)

/-- The scanning step of `split()` over one non-space character. -/
theorem pyWordsAux_cons_nonspace (c : Char) (hc : isPySpace c = false) (cur l : List Char) :
    pyWordsAux cur (c :: l) = pyWordsAux (c :: cur) l := by
  conv_lhs => rw [pyWordsAux]
  rw [hc]
  simp

/-- `split()` scans straight through a whitespace-free word. -/
theorem pyWordsAux_word_append (w : List Char) (hw : ∀ c ∈ w, isPySpace c = false) :
    ∀ cur rest, pyWordsAux cur (w ++ rest) = pyWordsAux (w.reverse ++ cur) rest := by
  induction w with
  | nil => intro cur rest; simp
  | cons c w ih =>
    intro cur rest
    have hc : isPySpace c = false := hw c (by simp)
    simp only [List.cons_append]
    rw [pyWordsAux_cons_nonspace c hc, ih (fun d hd => hw d (by simp [hd])) (c :: cur) rest]
    congr 1
    simp

/-- `split()` inverts single-space joining of proper words. -/
theorem pyWords_joinSpace (ws : List (List Char))
    (h : ∀ w ∈ ws, w ≠ [] ∧ ∀ c ∈ w, isPySpace c = false) :
    pyWords (joinSpace ws) = ws := by
  induction ws with
  | nil => rfl
  | cons w ws ih =>
    cases ws with
    | nil =>
      show pyWordsAux [] (joinSpace [w]) = [w]
      have hne := (h w (by simp)).1
      have : joinSpace [w] = w ++ [] := by simp [joinSpace]
      rw [this, pyWordsAux_word_append w (h w (by simp)).2 [] []]
      unfold pyWordsAux
      have : (w.reverse ++ []).isEmpty = false := by
        cases w with
        | nil => exact absurd rfl hne
        | cons a l => simp
      rw [this]
      simp
    | cons v vs =>
      show pyWordsAux [] (joinSpace (w :: v :: vs)) = w :: v :: vs
      have hjoin : joinSpace (w :: v :: vs) = w ++ ' ' :: joinSpace (v :: vs) := by
        simp [joinSpace]
      rw [hjoin, pyWordsAux_word_append w (h w (by simp)).2 [] (' ' :: joinSpace (v :: vs))]
      unfold pyWordsAux
      have hsp : isPySpace ' ' = true := by decide
      rw [hsp]
      have hne := (h w (by simp)).1
      have hem : (w.reverse ++ []).isEmpty = false := by
        cases w with
        | nil => exact absurd rfl hne
        | cons a l => simp
      rw [if_pos rfl, if_neg (by simpa [hem] using hne)]
      have := ih (fun u hu => h u (by simp [hu]))
      simp only [pyWords] at this
      rw [this]
      simp

/-- Truncation to the first `n` words is idempotent. -/
theorem truncateWords_idem (n : Nat) (l : List Char) :
    truncateWords n (truncateWords n l) = truncateWords n l := by
  unfold truncateWords
  by_cases h : (pyWords l).length > n
  · rw [if_pos h]
    have hw : pyWords (joinSpace ((pyWords l).take n)) = (pyWords l).take n :=
      pyWords_joinSpace _ (fun w hw => pyWords_words l w (List.take_subset n _ hw))
    rw [hw]
    have : ¬ ((pyWords l).take n).length > n := by
      simp [List.length_take]
    rw [if_neg this]
  · rw [if_neg h, if_neg h]

/-- C10 (corrected): only the primary watsonx embedding path truncates
its input to the first `chunk_size` (512) words — the embedding it
produces is invariant under that truncation — while the
sentence-transformers fallback receives the text unmodified. -/
theorem C10_embedding_truncation (cfg : KBConfig)
    (p fb : String → Except String (List ℚ)) (t : String) :
    generateEmbedding cfg (some p) fb t =
      generateEmbedding cfg (some p) fb (String.mk (truncateWords cfg.chunkSize t.data)) ∧
    generateEmbedding cfg none fb t =
      (match fb t with
       | Except.ok v => some v
       | Except.error _ => none) := by
  constructor
  · have hidem : truncateWords cfg.chunkSize ((String.mk (truncateWords cfg.chunkSize t.data)).data) =
        truncateWords cfg.chunkSize t.data := truncateWords_idem cfg.chunkSize t.data
    simp only [generateEmbedding, hidem]
  · rfl

set_option maxRecDepth 40000 in
/-- C10 counterexample: with the primary provider absent, the fallback
embedding of a 601-word text differs from the embedding of its first 512
words — the fallback call is not truncated, so the stored vector can
reflect content beyond the first 512 words. -/
theorem C10_counterexample :
    generateEmbedding KNOWLEDGE_BASE_CONFIG none
        (fun t => Except.ok [(wcS t : ℚ)]) words601 ≠
      generateEmbedding KNOWLEDGE_BASE_CONFIG none
        (fun t => Except.ok [(wcS t : ℚ)])
        (String.mk (truncateWords KNOWLEDGE_BASE_CONFIG.chunkSize words601.data)) := by
  decide


/-! ## C1 — citation assembly -/

/-- The citation appended for a candidate is exactly the one derived
from its result record. -/
theorem citationOf_mkResult (tag : CollTag) (h : Hit) (lvl : Conf) :
    citationOf (mkResult tag h lvl) = mkCitation tag h lvl := by
  cases tag <;> rfl

/-- One candidate step keeps citations the image of results. -/
theorem collStep_snd (th : String) (tag : CollTag)
    (acc : List ResultRec × List CitationRec) (h : Hit)
    (hacc : acc.2 = acc.1.map citationOf) :
    (collStep th true tag acc h).2 = (collStep th true tag acc h).1.map citationOf := by
  unfold collStep
  cases hc : (calcConfidence th h.similarity).2 <;>
    simp [hc, hacc, citationOf_mkResult]

/-- With citations requested, the per-collection loop produces the
citation list as the image of its result list. -/
theorem processColl_citations (th : String) (tag : CollTag) (hits : List Hit) :
    (processColl th true tag hits).2 = (processColl th true tag hits).1.map citationOf := by
  suffices hgen : ∀ acc : List ResultRec × List CitationRec, acc.2 = acc.1.map citationOf →
      (hits.foldl (collStep th true tag) acc).2 =
        (hits.foldl (collStep th true tag) acc).1.map citationOf by
    exact hgen ([], []) rfl
  induction hits with
  | nil => intro acc hacc; exact hacc
  | cons x hits ih =>
    intro acc hacc
    exact ih _ (collStep_snd th tag acc x hacc)

/-- Each conditional collection scan produces citations as the image of
its results. -/
theorem collScan_citations (cfg : KBConfig) (st key : String) (tag : CollTag)
    (h : Option (List Hit)) :
    (collScan cfg st true key tag h).2 = (collScan cfg st true key tag h).1.map citationOf := by
  unfold collScan
  cases hc : (st == key || st == "all")
  · rfl
  · cases h with
    | none => rfl
    | some hs => exact processColl_citations cfg.retrievalThreshold tag hs

/-- The full pre-limit citation list is the image of the pre-sort result
list. -/
theorem scanCitations_eq (cfg : KBConfig) (st : String)
    (tr em co : Option (List Hit)) :
    scanCitations cfg st true tr em co = (scanResults cfg st true tr em co).map citationOf := by
  unfold scanCitations scanResults
  rw [collScan_citations, collScan_citations, collScan_citations]
  simp [List.map_append]

/-- The citation list returned by the core search, before and after the
`citations_shown` limit. -/
theorem core_citations (cfg : KBConfig) (st : String) (incl : Bool)
    (tr em co : Option (List Hit)) (q rq : String) :
    (hybridSearchCore cfg st incl tr em co q rq).citations =
      (if cfg.citationsShown == 0 then []
       else if 0 < cfg.citationsShown then
         (scanCitations cfg st incl tr em co).take cfg.citationsShown.toNat
       else scanCitations cfg st incl tr em co) := rfl

/-- C1 (corrected): with `include_citations=true`, citations are built
1:1, in collection-scan order, from all threshold-passing candidates
before similarity sorting and `max_docs` truncation: every returned
citation is derived from some pre-sort result; `citations_shown = -1`
returns one citation per passing candidate, `0` returns none, and
`N > 0` returns exactly `N` (the first `N` in scan order) whenever
`N` is below the passing-candidate count. -/
theorem C1_citations_amended (cfg : KBConfig) (st : String)
    (tr em co : Option (List Hit)) (q rq : String) :
    (∀ c ∈ (hybridSearchCore cfg st true tr em co q rq).citations,
      ∃ r ∈ scanResults cfg st true tr em co, c = citationOf r) ∧
    (cfg.citationsShown = -1 →
      (hybridSearchCore cfg st true tr em co q rq).citations.length =
        (scanResults cfg st true tr em co).length) ∧
    (cfg.citationsShown = 0 →
      (hybridSearchCore cfg st true tr em co q rq).citations = []) ∧
    (∀ n : Nat, cfg.citationsShown = (n : Int) → 0 < n →
      n < (scanResults cfg st true tr em co).length →
      (hybridSearchCore cfg st true tr em co q rq).citations.length = n) ∧
    (cfg.citationsShown = -1 →
      (hybridSearchCore cfg st true tr em co q rq).citations =
        (scanResults cfg st true tr em co).map citationOf) ∧
    (∀ n : Nat, cfg.citationsShown = (n : Int) → 0 < n →
      (hybridSearchCore cfg st true tr em co q rq).citations =
        ((scanResults cfg st true tr em co).map citationOf).take n) := by
  refine ⟨?_, ?_, ?_, ?_, ?_, ?_⟩
  · intro c hc
    rw [core_citations, scanCitations_eq] at hc
    split at hc
    · exact absurd hc (List.not_mem_nil c)
    · split at hc
      · have hc2 := List.take_subset _ _ hc
        rcases List.mem_map.mp hc2 with ⟨r, hr, hrc⟩
        exact ⟨r, hr, hrc.symm⟩
      · rcases List.mem_map.mp hc with ⟨r, hr, hrc⟩
        exact ⟨r, hr, hrc.symm⟩
  · intro hshown
    rw [core_citations, scanCitations_eq, hshown]
    simp
  · intro hshown
    rw [core_citations, hshown]
    simp
  · intro n hshown hn hlen
    rw [core_citations, scanCitations_eq, hshown]
    have h0 : ¬ ((n : Int) == 0) = true := by
      simp only [beq_iff_eq]
      omega
    rw [if_neg h0, if_pos (by exact_mod_cast hn)]
    simp only [Int.toNat_natCast, List.length_take, List.length_map]
    omega
  · intro hshown
    rw [core_citations, scanCitations_eq, hshown]
    simp
  · intro n hshown hn
    rw [core_citations, scanCitations_eq, hshown]
    have h0 : ¬ ((n : Int) == 0) = true := by
      simp only [beq_iff_eq]
      omega
    rw [if_neg h0, if_pos (by exact_mod_cast hn)]
    simp only [Int.toNat_natCast]

/-- C1 counterexample: at this call the trade citation precedes the
email citation (collection-scan order) while the returned results are
sorted email first (similarity order), so the citations are not the 1:1
image of the returned, similarity-sorted result list. -/
theorem C1_counterexample :
    c1Call.citations ≠ c1Call.results.map citationOf := by
  decide

/-- Witness for C1's amended statement: with `citations_shown = -1` the
citation count equals the passing-candidate count. -/
theorem C1_citations_amended_witness :
    (hybridSearchCore KNOWLEDGE_BASE_CONFIG "all" true
        (some [tradeHitA]) (some [emailHitB]) (some []) "q" "q").citations.length =
      (scanResults KNOWLEDGE_BASE_CONFIG "all" true
        (some [tradeHitA]) (some [emailHitB]) (some [])).length :=
  (C1_citations_amended KNOWLEDGE_BASE_CONFIG "all"
    (some [tradeHitA]) (some [emailHitB]) (some []) "q" "q").2.1 rfl

/-! ## C2 — partial collection failure -/

/-- A raising collection contributes exactly what an empty one does. -/
theorem collScan_none_eq_empty (cfg : KBConfig) (st : String) (incl : Bool)
    (key : String) (tag : CollTag) :
    collScan cfg st incl key tag none = collScan cfg st incl key tag (some []) := by
  unfold collScan
  cases h : (st == key || st == "all") <;> simp [h, processColl]

/-- C2 (corrected): when the trade collection's search raises during a
scope-`all` search, the call degrades to exactly the outcome of the same
search over an empty trade collection — the healthy collections' ranked
results are still returned — but no error note is recorded: the returned
metadata has no `"error"` entry and carries only the five fixed stats
keys (the failure is only logged to stdout). -/
theorem C2_partial_failure_amended (cfg : KBConfig) (st : String) (incl : Bool)
    (em co : Option (List Hit)) (q rq : String) :
    hybridSearchCore cfg st incl none em co q rq =
      hybridSearchCore cfg st incl (some []) em co q rq ∧
    (hybridSearchCore cfg st incl none em co q rq).metadata.lookup "error" = none ∧
    (hybridSearchCore cfg st incl none em co q rq).metadata.map Prod.fst =
      ["total_results", "returned_results", "search_type", "confidence_threshold", "mode"] := by
  refine ⟨?_, rfl, rfl⟩
  have hr : scanResults cfg st incl none em co = scanResults cfg st incl (some []) em co := by
    unfold scanResults
    rw [collScan_none_eq_empty]
  have hcit : scanCitations cfg st incl none em co = scanCitations cfg st incl (some []) em co := by
    unfold scanCitations
    rw [collScan_none_eq_empty]
  unfold hybridSearchCore
  rw [hr, hcit]

/-- C2 counterexample: the healthy collection's result is returned, but
the metadata map holds only the five fixed stats keys and no error note
about the failed trade collection. -/
theorem C2_counterexample :
    c2Call.results = [mkResult CollTag.emails emailHitB Conf.highest] ∧
    c2Call.metadata.lookup "error" = none ∧
    c2Call.metadata.map Prod.fst =
      ["total_results", "returned_results", "search_type", "confidence_threshold", "mode"] := by
  decide

/-! ## C3 — chunking texts within the size bound -/

/-- Word counting over a whitespace character. -/
theorem wcAux_cons_space (b : Bool) (c : Char) (l : List Char) (h : isPySpace c = true) :
    wcAux b (c :: l) = wcAux true l := by
  conv_lhs => rw [wcAux]
  rw [h]
  simp

/-- Word counting over a non-whitespace character. -/
theorem wcAux_cons_nonspace (b : Bool) (c : Char) (l : List Char) (h : isPySpace c = false) :
    wcAux b (c :: l) = (if b then 1 else 0) + wcAux false l := by
  conv_lhs => rw [wcAux]
  rw [h]
  simp

/-- Splitter step: in skip mode a whitespace character is consumed. -/
theorem ssAux_true_space (prev c : Char) (rest : List Char) (h : isPySpace c = true) :
    ssAux true prev (c :: rest) = ssAux true c rest := by
  conv_lhs => rw [ssAux]
  rw [h]
  simp

/-- Splitter step: in skip mode a non-whitespace character starts the
next sentence. -/
theorem ssAux_true_nonspace (prev c : Char) (rest : List Char) (h : isPySpace c = false) :
    ssAux true prev (c :: rest) =
      (c :: (ssAux false c rest).1, (ssAux false c rest).2) := by
  conv_lhs => rw [ssAux]
  rw [h]
  simp

/-- Splitter step: terminal punctuation followed by whitespace closes
the sentence. -/
theorem ssAux_false_split (prev c : Char) (rest : List Char)
    (h1 : isTermCh prev = true) (h2 : isPySpace c = true) :
    ssAux false prev (c :: rest) =
      ([], (ssAux true c rest).1 :: (ssAux true c rest).2) := by
  conv_lhs => rw [ssAux]
  rw [h1, h2]
  simp

/-- Splitter step: any other character extends the current sentence. -/
theorem ssAux_false_nosplit (prev c : Char) (rest : List Char)
    (h : (isTermCh prev && isPySpace c) = false) :
    ssAux false prev (c :: rest) =
      (c :: (ssAux false c rest).1, (ssAux false c rest).2) := by
  conv_lhs => rw [ssAux]
  rw [h]
  simp

/-- `sumWc` over a cons. -/
theorem sumWc_cons (x : List Char) (xs : List (List Char)) :
    sumWc (x :: xs) = wcL x + sumWc xs := by
  simp [sumWc]

/-- `sumWc` over an append. -/
theorem sumWc_append (xs ys : List (List Char)) :
    sumWc (xs ++ ys) = sumWc xs + sumWc ys := by
  simp [sumWc]

/-- The sentence splitter neither creates nor destroys words: the words
of the current part plus those of the later parts are the words of the
input. -/
theorem ssAux_wc (l : List Char) :
    ∀ (sk b : Bool) (prev : Char), (sk = true → b = true) →
      wcAux b (ssAux sk prev l).1 + sumWc (ssAux sk prev l).2 = wcAux b l := by
  induction l with
  | nil =>
    intro sk b prev _
    cases sk <;> simp [ssAux, sumWc, wcAux]
  | cons c rest ih =>
    intro sk b prev hsk
    cases sk with
    | true =>
      have hb := hsk rfl
      subst hb
      by_cases hsp : isPySpace c = true
      · rw [ssAux_true_space prev c rest hsp, ih true true c (fun _ => rfl),
          wcAux_cons_space true c rest hsp]
      · have hsp' : isPySpace c = false := by simpa using hsp
        rw [ssAux_true_nonspace prev c rest hsp']
        simp only
        rw [wcAux_cons_nonspace true c _ hsp', wcAux_cons_nonspace true c rest hsp']
        have hrec := ih false false c (fun hx => hx)
        omega
    | false =>
      by_cases hcond : (isTermCh prev && isPySpace c) = true
      · rcases Bool.and_eq_true_iff.mp hcond with ⟨h1, h2⟩
        rw [ssAux_false_split prev c rest h1 h2]
        simp only
        rw [sumWc_cons, wcAux_cons_space b c rest h2]
        have hrec := ih true true c (fun _ => rfl)
        simp only [wcAux] at hrec ⊢
        rw [← hrec]
        simp [wcL]
      · have hcond' : (isTermCh prev && isPySpace c) = false := by simpa using hcond
        rw [ssAux_false_nosplit prev c rest hcond']
        simp only
        by_cases hsp : isPySpace c = true
        · rw [wcAux_cons_space b c _ hsp, wcAux_cons_space b c rest hsp]
          exact ih false true c (fun hx => nomatch hx)
        · have hsp' : isPySpace c = false := by simpa using hsp
          rw [wcAux_cons_nonspace b c _ hsp', wcAux_cons_nonspace b c rest hsp']
          have hrec := ih false false c (fun hx => hx)
          omega

/-- The sentence split preserves the total word count. -/
theorem sumWc_sentSplit (l : List Char) : sumWc (sentSplitL l) = wcL l := by
  have h := ssAux_wc l false true ' ' (fun hx => nomatch hx)
  show sumWc ((ssAux false ' ' l).1 :: (ssAux false ' ' l).2) = wcL l
  rw [sumWc_cons]
  exact h

/-- As long as the accumulated and incoming word counts stay within the
chunk size, the chunk loop only accumulates. -/
theorem chunkFold_no_overflow (cs ov : Nat) (title : String) (S : List (List Char)) :
    ∀ (chunks : List ChunkRec) (cur : List (List Char)) (len : Nat),
      len = sumWc cur → len + sumWc S ≤ cs →
      S.foldl (chunkStep cs ov title) (chunks, cur, len) =
        (chunks, cur ++ S, len + sumWc S) := by
  induction S with
  | nil =>
    intro chunks cur len _ _
    simp [sumWc]
  | cons s S ih =>
    intro chunks cur len hlen hle
    have hsum : sumWc (s :: S) = wcL s + sumWc S := sumWc_cons s S
    have hstep : chunkStep cs ov title (chunks, cur, len) s =
        (chunks, cur ++ [s], len + wcL s) := by
      unfold chunkStep
      have hnot : decide (cs < len + wcL s) = false := by
        simp only [decide_eq_false_iff_not]
        omega
      simp [hnot]
    rw [List.foldl_cons, hstep,
      ih chunks (cur ++ [s]) (len + wcL s) (by rw [hlen, sumWc_append]; simp [sumWc])
        (by omega)]
    rw [List.append_assoc]
    simp only [List.singleton_append]
    congr 1
    rw [Prod.ext_iff]
    exact ⟨rfl, by simp; omega⟩

/-- C3 (corrected): every text of at most `chunk_size` (512) words comes
back as exactly one chunk whose text is the text's sentence sequence
rejoined with single spaces (equal to the original whenever its sentence
separators are single spaces); in particular the empty input yields one
chunk with empty text rather than an empty sequence, and the function is
total. -/
theorem C3_single_chunk_amended (text title : String) (h : wcS text ≤ 512) :
    chunkText text title =
      [⟨String.mk (joinSpace (sentSplitL text.data)), title, 0⟩] := by
  have hfold := chunkFold_no_overflow KNOWLEDGE_BASE_CONFIG.chunkSize
      KNOWLEDGE_BASE_CONFIG.chunkOverlap title (sentSplitL text.data) [] [] 0 rfl
      (by rw [sumWc_sentSplit]; simpa [wcS, KNOWLEDGE_BASE_CONFIG] using h)
  simp only [chunkText, chunkTextCfg]
  rw [hfold]
  simp [sentSplitL]

/-- C3 counterexample: the empty input yields one empty-text chunk, not
the empty sequence, and a two-sentence text separated by a newline is
not returned verbatim (the separator becomes a single space). -/
theorem C3_counterexample :
    chunkText "" "doc" = [⟨"", "doc", 0⟩] ∧
    chunkText "" "doc" ≠ [] ∧
    (chunkText ("Hi." ++ String.mk [Char.ofNat 10] ++ "Bye.") "doc").map ChunkRec.text ≠
      ["Hi." ++ String.mk [Char.ofNat 10] ++ "Bye."] := by
  refine ⟨by decide, by decide, by decide⟩

/-- Witness for C3 at a concrete three-sentence text within the bound. -/
theorem C3_single_chunk_amended_witness :
    wcS "Hello there. Bye." ≤ 512 ∧
    chunkText "Hello there. Bye." "doc" = [⟨"Hello there. Bye.", "doc", 0⟩] := by
  refine ⟨by decide, ?_⟩
  rw [C3_single_chunk_amended "Hello there. Bye." "doc" (by decide)]
  decide

/-! ## C4 — chunking texts above the size bound -/

/-- Word counting distributes over a single-space join point. -/
theorem wcAux_append_space (a : List Char) :
    ∀ (b0 : Bool) (c : List Char), wcAux b0 (a ++ ' ' :: c) = wcAux b0 a + wcAux true c := by
  induction a with
  | nil =>
    intro b0 c
    rw [List.nil_append, wcAux_cons_space b0 ' ' c (by decide)]
    simp [wcAux]
  | cons x a ih =>
    intro b0 c
    by_cases hx : isPySpace x = true
    · rw [List.cons_append, wcAux_cons_space b0 x _ hx, wcAux_cons_space b0 x a hx, ih]
    · have hx' : isPySpace x = false := by simpa using hx
      rw [List.cons_append, wcAux_cons_nonspace b0 x _ hx', wcAux_cons_nonspace b0 x a hx',
        ih false c]
      ring

/-- The word count of a joined chunk is the word-count sum of its
sentences. -/
theorem wcL_joinSpace (parts : List (List Char)) : wcL (joinSpace parts) = sumWc parts := by
  induction parts with
  | nil => rfl
  | cons p ps ih =>
    cases ps with
    | nil => simp [joinSpace, sumWc]
    | cons q rest =>
      show wcL (p ++ ' ' :: joinSpace (q :: rest)) = sumWc (p :: q :: rest)
      rw [sumWc_cons, wcL, wcAux_append_space p true (joinSpace (q :: rest))]
      have h2 : wcAux true (joinSpace (q :: rest)) = sumWc (q :: rest) := ih
      rw [h2]
      rfl

/-- A Python tail slice keeps at most `k` elements (for `k ≠ 0`). -/
theorem pyTailSlice_length_le (k : Nat) (hk : k ≠ 0) (l : List α) :
    (pyTailSlice k l).length ≤ k := by
  unfold pyTailSlice
  rw [if_neg hk]
  simp [List.length_drop]
  omega

/-- A Python tail slice is a subset of its list. -/
theorem pyTailSlice_subset (k : Nat) (l : List α) : pyTailSlice k l ⊆ l := by
  unfold pyTailSlice
  split
  · exact fun a ha => ha
  · exact List.drop_subset _ l

/-- A Python tail slice of a non-empty list is non-empty (for `k ≠ 0`). -/
theorem pyTailSlice_ne_nil (k : Nat) (hk : k ≠ 0) (l : List α) (hl : l ≠ []) :
    pyTailSlice k l ≠ [] := by
  unfold pyTailSlice
  rw [if_neg hk]
  intro hdrop
  have hlen := congrArg List.length hdrop
  simp only [List.length_drop, List.length_nil] at hlen
  have hlne : l.length ≠ 0 := fun h0 => hl (List.eq_nil_of_length_eq_zero h0)
  omega

/-- `projChunksFrom` over an appended chunk. -/
theorem projChunksFrom_append_one (title : String) (cur : List (List Char)) :
    ∀ (chS : List (List (List Char))) (i : Nat),
      projChunksFrom title i (chS ++ [cur]) =
        projChunksFrom title i chS ++ [⟨String.mk (joinSpace cur), title, i + chS.length⟩] := by
  intro chS
  induction chS with
  | nil => intro i; simp [projChunksFrom]
  | cons c rest ih =>
    intro i
    simp only [List.cons_append, projChunksFrom, List.append_eq, ih (i + 1), List.length_cons]
    have harith : i + 1 + rest.length = i + (rest.length + 1) := by omega
    rw [harith]

/-- `projChunksFrom` preserves length. -/
theorem projChunksFrom_length (title : String) :
    ∀ (chS : List (List (List Char))) (i : Nat),
      (projChunksFrom title i chS).length = chS.length := by
  intro chS
  induction chS with
  | nil => intro i; rfl
  | cons c rest ih => intro i; simp [projChunksFrom, ih]

/-- One chunk-loop step at the record level is the projection of the
step at the sentence-list level. -/
theorem chunkStep_proj (cs ov : Nat) (title : String)
    (chS : List (List (List Char))) (cur : List (List Char)) (len : Nat) (s : List Char) :
    chunkStep cs ov title (projChunks title chS, cur, len) s =
      (projChunks title (chunkSentsStep cs ov (chS, cur, len) s).1,
       (chunkSentsStep cs ov (chS, cur, len) s).2) := by
  by_cases hcond : (decide (cs < len + wcL s) && !cur.isEmpty) = true
  · simp only [chunkStep, chunkSentsStep, hcond, if_true, projChunks]
    rw [projChunksFrom_append_one, projChunksFrom_length]
    simp
  · have hcond' : (decide (cs < len + wcL s) && !cur.isEmpty) = false := by
      simpa using hcond
    simp only [chunkStep, chunkSentsStep, hcond', Bool.false_eq_true, if_false]

/-- The whole chunk loop at the record level is the projection of the
loop at the sentence-list level. -/
theorem chunk_fold_proj (cs ov : Nat) (title : String) (S : List (List Char)) :
    ∀ (chS : List (List (List Char))) (cur : List (List Char)) (len : Nat),
      S.foldl (chunkStep cs ov title) (projChunks title chS, cur, len) =
        (projChunks title (S.foldl (chunkSentsStep cs ov) (chS, cur, len)).1,
         (S.foldl (chunkSentsStep cs ov) (chS, cur, len)).2) := by
  induction S with
  | nil => intro chS cur len; rfl
  | cons s S ih =>
    intro chS cur len
    rw [List.foldl_cons, List.foldl_cons, chunkStep_proj]
    have hr := ih (chunkSentsStep cs ov (chS, cur, len) s).1
      (chunkSentsStep cs ov (chS, cur, len) s).2.1
      (chunkSentsStep cs ov (chS, cur, len) s).2.2
    simpa using hr

/-- `_chunk_text` is the projection of the sentence-list chunking. -/
theorem chunkTextCfg_proj (cfg : KBConfig) (text title : String) :
    chunkTextCfg cfg text title =
      projChunks title (chunkSentLists cfg.chunkSize cfg.chunkOverlap (sentSplitL text.data)) := by
  simp only [chunkTextCfg, chunkSentLists]
  rw [show (([], [], 0) : List ChunkRec × List (List Char) × Nat) =
      (projChunks title [], ([] : List (List Char)), 0) from rfl]
  rw [chunk_fold_proj]
  by_cases hcur :
      ((sentSplitL text.data).foldl (chunkSentsStep cfg.chunkSize cfg.chunkOverlap)
        ([], [], 0)).2.1.isEmpty
  · simp [hcur]
  · have hcur' :
        ((sentSplitL text.data).foldl (chunkSentsStep cfg.chunkSize cfg.chunkOverlap)
          ([], [], 0)).2.1.isEmpty = false := by simpa using hcur
    simp only [hcur', Bool.not_false, if_true, projChunks]
    rw [projChunksFrom_append_one, projChunksFrom_length]
    simp

/-- One close step of the sentence-list chunk loop. -/
theorem chunkSentsStep_close (cs ov : Nat) (chS : List (List (List Char)))
    (cur : List (List Char)) (len : Nat) (s : List Char)
    (h : (decide (cs < len + wcL s) && !cur.isEmpty) = true) :
    chunkSentsStep cs ov (chS, cur, len) s =
      (chS ++ [cur],
       (if cur.length > 1 then pyTailSlice (ov / 10) cur else []) ++ [s],
       sumWc ((if cur.length > 1 then pyTailSlice (ov / 10) cur else []) ++ [s])) := by
  simp only [chunkSentsStep, h, if_true, sumWc]

/-- One accumulation step of the sentence-list chunk loop. -/
theorem chunkSentsStep_app (cs ov : Nat) (chS : List (List (List Char)))
    (cur : List (List Char)) (len : Nat) (s : List Char)
    (h : (decide (cs < len + wcL s) && !cur.isEmpty) = false) :
    chunkSentsStep cs ov (chS, cur, len) s = (chS, cur ++ [s], len + wcL s) := by
  simp only [chunkSentsStep, h, Bool.false_eq_true, if_false]

/-- Invariant of the sentence-list chunk loop: from a non-empty current
chunk, the loop maintains (a) the length bookkeeping, (b) the bound that
any chunk holding more than `ov/10 + 1` sentences has word count within
the chunk size, and (c) adjacency overlap between consecutive chunks
whenever the earlier one holds more than one sentence. -/
theorem chunkSents_invariant (cs ov : Nat) (hk : ov / 10 ≠ 0) (S : List (List Char)) :
    ∀ (chS : List (List (List Char))) (cur : List (List Char)) (len : Nat),
      cur ≠ [] →
      len = sumWc cur →
      (ov / 10 + 1 < cur.length → len ≤ cs) →
      List.Chain' chunkOverlapOK (chS ++ [cur]) →
      (∀ ch ∈ chS, ov / 10 + 1 < ch.length → sumWc ch ≤ cs) →
      ((S.foldl (chunkSentsStep cs ov) (chS, cur, len)).2.1 ≠ [] ∧
       (S.foldl (chunkSentsStep cs ov) (chS, cur, len)).2.2 =
         sumWc (S.foldl (chunkSentsStep cs ov) (chS, cur, len)).2.1 ∧
       (ov / 10 + 1 < (S.foldl (chunkSentsStep cs ov) (chS, cur, len)).2.1.length →
         (S.foldl (chunkSentsStep cs ov) (chS, cur, len)).2.2 ≤ cs) ∧
       List.Chain' chunkOverlapOK
         ((S.foldl (chunkSentsStep cs ov) (chS, cur, len)).1 ++
           [(S.foldl (chunkSentsStep cs ov) (chS, cur, len)).2.1]) ∧
       (∀ ch ∈ (S.foldl (chunkSentsStep cs ov) (chS, cur, len)).1,
         ov / 10 + 1 < ch.length → sumWc ch ≤ cs)) := by
  induction S with
  | nil =>
    intro chS cur len h1 h2 h3 h4 h5
    exact ⟨h1, h2, h3, h4, h5⟩
  | cons s S ih =>
    intro chS cur len h1 h2 h3 h4 h5
    rw [List.foldl_cons]
    by_cases hcond : (decide (cs < len + wcL s) && !cur.isEmpty) = true
    · rw [chunkSentsStep_close cs ov chS cur len s hcond]
      have hseedlen : (if cur.length > 1 then pyTailSlice (ov / 10) cur else []).length ≤ ov / 10 := by
        split
        · exact pyTailSlice_length_le _ hk cur
        · simp
      have hseedsub : 1 < cur.length →
          (if cur.length > 1 then pyTailSlice (ov / 10) cur else []) ≠ [] ∧
          (if cur.length > 1 then pyTailSlice (ov / 10) cur else []) ⊆ cur := by
        intro hgt
        rw [if_pos hgt]
        exact ⟨pyTailSlice_ne_nil _ hk cur h1, pyTailSlice_subset _ cur⟩
      apply ih
      · simp
      · rfl
      · intro hlen
        exfalso
        rw [List.length_append, List.length_singleton] at hlen
        omega
      · rw [List.chain'_append]
        refine ⟨h4, List.chain'_singleton _, ?_⟩
        intro x hx y hy
        rw [List.getLast?_concat] at hx
        simp only [Option.mem_def, Option.some.injEq] at hx
        simp only [List.head?_cons, Option.mem_def, Option.some.injEq] at hy
        subst hx
        subst hy
        intro hcurlen
        rcases hseedsub hcurlen with ⟨hne, hsub⟩
        rcases List.exists_mem_of_ne_nil _ hne with ⟨t, ht⟩
        exact ⟨t, hsub ht, List.mem_append_left _ ht⟩
      · intro ch hch hchlen
        rcases List.mem_append.mp hch with hin | hin
        · exact h5 ch hin hchlen
        · rw [List.mem_singleton] at hin
          subst hin
          rw [← h2]
          exact h3 hchlen
    · have hcond' : (decide (cs < len + wcL s) && !cur.isEmpty) = false := by
        simpa using hcond
      rw [chunkSentsStep_app cs ov chS cur len s hcond']
      have hne : (!cur.isEmpty) = true := by
        cases cur with
        | nil => exact absurd rfl h1
        | cons a l => rfl
      have hle : len + wcL s ≤ cs := by
        rw [hne, Bool.and_true, decide_eq_false_iff_not] at hcond'
        omega
      apply ih
      · simp
      · rw [h2, sumWc_append]
        simp [sumWc]
      · intro _
        exact hle
      · rcases List.chain'_append.mp h4 with ⟨hA, _, hlink⟩
        rw [List.chain'_append]
        refine ⟨hA, List.chain'_singleton _, ?_⟩
        intro x hx y hy
        simp only [List.head?_cons, Option.mem_def, Option.some.injEq] at hy
        subst hy
        intro hxlen
        rcases hlink x hx cur (by simp) hxlen with ⟨t, ht1, ht2⟩
        exact ⟨t, ht1, List.mem_append_left _ ht2⟩
      · exact h5

/-- The chunk lists produced by `_chunk_text` satisfy the adjacency
overlap and the conditional word-count bound. -/
theorem chunkSentLists_invariant (cs ov : Nat) (hk : ov / 10 ≠ 0) (text : List Char) :
    List.Chain' chunkOverlapOK (chunkSentLists cs ov (sentSplitL text)) ∧
    ∀ ch ∈ chunkSentLists cs ov (sentSplitL text), ov / 10 + 1 < ch.length → sumWc ch ≤ cs := by
  unfold chunkSentLists
  show _ ∧ _
  rw [show sentSplitL text = (ssAux false ' ' text).1 :: (ssAux false ' ' text).2 from rfl]
  rw [List.foldl_cons]
  have hstep : chunkSentsStep cs ov ([], [], 0) (ssAux false ' ' text).1 =
      ([], [(ssAux false ' ' text).1], wcL (ssAux false ' ' text).1) := by
    have hc : (decide (cs < 0 + wcL (ssAux false ' ' text).1) &&
        !(List.isEmpty ([] : List (List Char)))) = false := by
      simp
    rw [chunkSentsStep_app cs ov [] [] 0 (ssAux false ' ' text).1 hc]
    simp
  rw [hstep]
  have hinv := chunkSents_invariant cs ov hk (ssAux false ' ' text).2 [] [(ssAux false ' ' text).1]
      (wcL (ssAux false ' ' text).1) (by simp) (by simp [sumWc])
      (by intro hcontra; rw [List.length_singleton] at hcontra; omega)
      (by simp only [List.nil_append]; exact List.chain'_singleton _)
      (by intro ch hch; exact absurd hch (List.not_mem_nil ch))
  obtain ⟨hne, hlen, hbound, hchain, hchbound⟩ := hinv
  have hif : (!((ssAux false ' ' text).2.foldl (chunkSentsStep cs ov)
      ([], [(ssAux false ' ' text).1], wcL (ssAux false ' ' text).1)).2.1.isEmpty) = true := by
    rcases hcur : ((ssAux false ' ' text).2.foldl (chunkSentsStep cs ov)
        ([], [(ssAux false ' ' text).1], wcL (ssAux false ' ' text).1)).2.1 with _ | ⟨a, l⟩
    · exact absurd hcur hne
    · simp [hcur]
  rw [if_pos hif]
  refine ⟨hchain, ?_⟩
  intro ch hch hlen2
  rcases List.mem_append.mp hch with hin | hin
  · exact hchbound ch hin hlen2
  · rw [List.mem_singleton] at hin
    subst hin
    rw [← hlen]
    exact hbound hlen2

/-- C4 (corrected): consecutive chunks of `_chunk_text` share at least
one sentence whenever the earlier chunk holds more than one sentence
(the overlap is the trailing `overlap // 10 = 5` sentences of the
previous chunk; a single-sentence chunk seeds no overlap); and every
chunk holding more than `overlap // 10 + 1 = 6` sentences has word count
at most `chunk_size` (a chunk consisting only of its seed — at most six
sentences, e.g. one oversized sentence — may exceed it).  The produced
chunk records are exactly the projections of these sentence lists. -/
theorem C4_chunks_amended (text title : String) :
    List.Chain' chunkOverlapOK (chunkSentLists 512 50 (sentSplitL text.data)) ∧
    (∀ ch ∈ chunkSentLists 512 50 (sentSplitL text.data),
      6 < ch.length → wcS (String.mk (joinSpace ch)) ≤ 512) ∧
    chunkText text title = projChunks title (chunkSentLists 512 50 (sentSplitL text.data)) := by
  have h := chunkSentLists_invariant 512 50 (by norm_num) text.data
  refine ⟨h.1, ?_, ?_⟩
  · intro ch hch hlen
    have hb := h.2 ch hch hlen
    show wcL (joinSpace ch) ≤ 512
    rw [wcL_joinSpace]
    exact hb
  · exact chunkTextCfg_proj KNOWLEDGE_BASE_CONFIG text title

set_option maxRecDepth 100000 in
/-- C4 counterexample: `chunkDocT` (600 words, two 300-word sentences)
chunks into two single-sentence chunks that share no sentence, and
`chunkDocU` (601 words, whose first sentence alone has 600 words) yields
a chunk with word count above 512 — refuting both the universal ≤512
bound and the unconditional consecutive-overlap property. -/
theorem C4_counterexample :
    512 < wcS chunkDocT ∧
    1 < (sentSplitL chunkDocT.data).length ∧
    chunkText chunkDocT "" = [⟨sentA, "", 0⟩, ⟨sentB, "", 1⟩] ∧
    (¬ ∃ s, s ∈ sentSplitL sentA.data ∧ s ∈ sentSplitL sentB.data) ∧
    512 < wcS chunkDocU ∧
    (∃ ch ∈ chunkText chunkDocU "", 512 < wcS ch.text) := by
  refine ⟨by decide, by decide, by decide, by decide, by decide, by decide⟩

/-- Witness for C4 at a concrete three-sentence text: the produced chunk
records project the sentence-list chunking. -/
theorem C4_chunks_amended_witness :
    chunkText "A. B. C." "doc" =
      projChunks "doc" (chunkSentLists 512 50 (sentSplitL ("A. B. C.").data)) :=
  (C4_chunks_amended "A. B. C." "doc").2.2

end Orqon
